import Mathlib

/-!
Verification of the MaCleaner disk-cleanup utility (Go sources under
internal/scanner, internal/cleaner, internal/utils, internal/ltui, internal/models).

The Go code is shallowly embedded as follows.

The filesystem seen by a scan or size pass is static between passes and is
modelled by the concrete data the traversal produces:

* for the duplicate scanner, a `List DupFile` in walk order, each entry carrying
  the path, the byte size reported by `os.FileInfo.Size()`, and the result of
  `utils.FileHash` (md5 of the first 4096 bytes; the empty string models an
  unreadable file, which the Go code skips);
* for the size-measurement strategies, a `List FsEntry` in enumeration order,
  each entry carrying the path, the entry kind (regular file, directory or
  symlink) and the lstat size.

Go `map` iteration order is unspecified; maps built by `append` are modelled as
association lists in insertion order.  Every theorem proved below is insensitive
to that order, and every counterexample exhibits behaviour that occurs under
every iteration order.

Effects that leave the embedded fragment (running `sudo`, `rm`, external
commands, the deletion syscalls) are abstracted by boolean-valued oracles
(`removeOk`, `execOk`, `sudoOk`, `del`) giving the outcome of each attempt,
and by a threaded abstract world state for `CleanTargets`.  Timestamps
(`CleanResult.Timestamp`) and the 100 ms settle sleep are not modelled: no
claim mentions them.
-/

namespace scanner

/-- One regular file seen by the traversal pass of `Scanner.ScanDuplicates`
(internal/scanner/scanner.go): its path, its `os.FileInfo.Size()`, and the
`utils.FileHash` prefix hash of its content (`""` models an unreadable file). -/
structure DupFile where
  path : String
  size : Nat
  hash : String
  deriving DecidableEq, Repr

/-- Mirrors `models.DuplicateGroup`: hash, per-group recorded size, member paths. -/
structure DuplicateGroup where
  hash : String
  size : Nat
  files : List String
  deriving DecidableEq, Repr

/-- Association-list model of `m[k] = append(m[k], v)` on a Go map whose values
are slices: the value is appended to the bucket of `k`, a new bucket being
created at the end on first use. -/
def appendAt {κ α : Type} [DecidableEq κ] (k : κ) (v : α) :
    List (κ × List α) → List (κ × List α)
  | [] => [(k, [v])]
  | (k₀, vs) :: rest =>
    if k = k₀ then (k₀, vs ++ [v]) :: rest else (k₀, vs) :: appendAt k v rest

/-- First pass of `ScanDuplicates`: group by size, keeping only files with
`info.Size() > 1024*1024` (strictly larger than 1 MiB). -/
def sizeMapOf (files : List DupFile) : List (Nat × List DupFile) :=
  files.foldl (fun m f => if 1024 * 1024 < f.size then appendAt f.size f m else m) []

/-- Second pass of `ScanDuplicates`: for every size bucket holding at least two
files, hash each file and append it to the bucket of its hash; files whose hash
is `""` (unreadable) are skipped.  The hash map is shared across all size
buckets, exactly as in the Go code. -/
def hashMapOf (files : List DupFile) : List (String × List DupFile) :=
  (sizeMapOf files).foldl
    (fun hm e =>
      if 2 ≤ e.2.length then
        e.2.foldl (fun hm₀ f => if f.hash ≠ "" then appendAt f.hash f hm₀ else hm₀) hm
      else hm)
    []

/-- Third pass of `ScanDuplicates`: every hash bucket with at least two members
becomes a `DuplicateGroup` whose `Size` is `os.Stat(paths[0]).Size()` (the first
member's current size; the filesystem is static, so the stat yields the recorded
size of that member), and the running total grows by `Size * (len(paths)-1)`. -/
def buildGroups : List (String × List DupFile) → List DuplicateGroup × Nat
  | [] => ([], 0)
  | (h, fs) :: rest =>
    let out := buildGroups rest
    match fs with
    | f₀ :: f₁ :: tl =>
      (⟨h, f₀.size, (f₀ :: f₁ :: tl).map (·.path)⟩ :: out.1,
        f₀.size * ((f₀ :: f₁ :: tl).length - 1) + out.2)
    | _ => out

/-- Model of `Scanner.ScanDuplicates` restricted to its pure pipeline: the walk
output is the `files` argument; the result is the duplicate groups together with
the total reclaimable byte count. -/
def ScanDuplicates (files : List DupFile) : List DuplicateGroup × Nat :=
  buildGroups (hashMapOf files)

/-- Current on-disk size of path `p` in the static filesystem described by
`files` (the model of `os.Stat(p).Size()`). -/
def statSize (files : List DupFile) (p : String) : Option Nat :=
  (files.find? (fun f => f.path = p)).map (·.size)

/-- Go loop `for n := b / unit; n >= unit; n /= unit { exp++ }` with an explicit
structural fuel (the fuel is ample: the loop runs at most log₁₀₂₄ times). -/
def expLoop : Nat → Nat → Nat
  | 0, _ => 0
  | fuel + 1, n => if 1024 ≤ n then expLoop fuel (n / 1024) + 1 else 0

/-- Unit index computed by `formatBytes` for `b ≥ 1024`. -/
def byteExp (b : Nat) : Nat :=
  expLoop b (b / 1024)

/-- Unit table of `scanner.formatBytes` (internal/scanner/scanner.go): note it
ends at `"TB"`. -/
def units : List String := ["KB", "MB", "GB", "TB"]

/-- Model of `scanner.formatBytes`: below 1024 it returns the bare string `"B"`;
otherwise it returns `units[exp]` with no numeric prefix (the computed `div` is
never used).  The out-of-range index panic of `units[exp]` is modelled by
`List.get?` returning `none`. -/
def formatBytes (b : Nat) : Option String :=
  if b < 1024 then some "B" else units.get? (byteExp b)

end scanner

namespace ltui

/-- Rendering of `fmt.Sprintf("%.1f", float64(num)/float64(den))` by exact
rational arithmetic: the value `num/den` is rounded to tenths, ties to even.
The Go code computes the quotient in `float64`; the two agree on every quantity
whose quotient and rounding are exactly representable, in particular on the
exact values used in the theorems below. -/
def fmtTenths (num den : Nat) : String :=
  let q := (10 * num) / den
  let r := (10 * num) % den
  let rounded :=
    if 2 * r < den then q
    else if den < 2 * r then q + 1
    else if q % 2 = 0 then q else q + 1
  toString (rounded / 10) ++ "." ++ toString (rounded % 10)

/-- Unit table of `ltui.formatBytes` (internal/ltui/terminal.go): it extends
through `"PB"`. -/
def units : List String := ["KB", "MB", "GB", "TB", "PB"]

/-- Model of `ltui.formatBytes`: below 1024 it returns the bare string `"B"`;
otherwise it renders `float64(b)/float64(div)` with one decimal place followed
by the unit label, where `div = 1024^(exp+1)`.  The out-of-range index panic of
`units[exp]` is modelled by `none`. -/
def formatBytes (b : Nat) : Option String :=
  if b < 1024 then some "B"
  else
    (units.get? (scanner.byteExp b)).map
      (fun u => fmtTenths b (1024 ^ (scanner.byteExp b + 1)) ++ " " ++ u)

end ltui

namespace cleaner

/-- Kind of a filesystem entry as seen by `os.Lstat` / `filepath.Walk` /
`find -type f`. -/
inductive FsKind where
  | file
  | dir
  | symlink
  deriving DecidableEq, Repr

/-- One entry of the filesystem region a measurement or deletion works on:
path, kind, and lstat size.  The region is modelled flatly as the list of
entries a recursive enumeration yields; both measurement strategies consume
exactly this enumeration in the Go code. -/
structure FsEntry where
  path : String
  kind : FsKind
  size : Nat
  deriving DecidableEq, Repr

/-- Matching of a `*` wildcard: try the rest of the pattern (`k`) on the
current suffix, or consume one non-separator character and retry. -/
def starMatch (k : List Char → Bool) : List Char → Bool
  | [] => k []
  | c :: cs => k (c :: cs) || (c ≠ '/' && starMatch k cs)

/-- Model of Go `filepath.Match` restricted to patterns built from literal
characters and `*` (the only metacharacter appearing in the target catalog):
`*` matches any possibly empty run of non-separator characters. -/
def globMatchL : List Char → List Char → Bool
  | [], s => s.isEmpty
  | '*' :: ps, s => starMatch (globMatchL ps) s
  | p :: ps, s =>
    match s with
    | [] => false
    | c :: cs => p == c && globMatchL ps cs

/-- String wrapper for `globMatchL`. -/
def globMatch (pattern name : String) : Bool :=
  globMatchL pattern.toList name.toList

/-- Primary wildcard strategy of `Cleaner.calculateActualSize`
(internal/cleaner/cleaner.go): the output of `find basePath -type f` is the list
of regular-file entries of the region; each one matching the pattern is statted
and, not being a directory, its size is added. -/
def calculateActualSizeWild (entries : List FsEntry) (pattern : String) : Nat :=
  (entries.filter (fun e => e.kind = FsKind.file)).foldl
    (fun total e => if globMatch pattern e.path then total + e.size else total) 0

/-- Fallback strategy `Cleaner.walkCalculateSize`: `filepath.Walk` visits every
entry of the region; directories are skipped, and every other entry (regular
file or symlink, with its lstat size) matching the pattern is added. -/
def walkCalculateSize (entries : List FsEntry) (pattern : String) : Nat :=
  entries.foldl
    (fun total e =>
      if e.kind = FsKind.dir then total
      else if globMatch pattern e.path then total + e.size else total) 0

/-- Loop of `Cleaner.deletePath` over the glob matches of a wildcard pattern:
`del m = true` models a successful `deleteSinglePath(m)`.  The running state is
Go's `(lastErr, deletedCount)` pair. -/
def deleteLoop (del : String → Bool) :
    List String → Option String → Nat → Option String × Nat
  | [], lastErr, cnt => (lastErr, cnt)
  | m :: rest, lastErr, cnt =>
    if del m then deleteLoop del rest lastErr (cnt + 1)
    else deleteLoop del rest (some m) cnt

/-- Outcome of `Cleaner.deletePath` on a wildcard path whose glob succeeded with
`ms`: `true` means the call returns an error (`lastErr != nil` and
`deletedCount == 0`), `false` means it returns `nil`. -/
def deletePathWildErr (ms : List String) (del : String → Bool) : Bool :=
  if ms.isEmpty then false
  else
    let st := deleteLoop del ms none 0
    st.1.isSome && st.2 == 0

/-- Lookup of a path in the flat filesystem region: the model of `os.Stat`
(the region is symlink-free wherever this is used, so Stat and Lstat agree). -/
def statEntry (fs : List FsEntry) (p : String) : Option FsEntry :=
  fs.find? (fun e => e.path == p)

/-- Removal of a path and everything below it from the region: the effect of a
successful `rm -rf p` / `os.RemoveAll(p)` / `os.Remove(p)`. -/
def removeSubtree (fs : List FsEntry) (p : String) : List FsEntry :=
  fs.filter (fun e => !(e.path == p || (p ++ "/").isPrefixOf e.path))

/-- Model of `Cleaner.deleteSinglePath`: an absent path is success with no
change; otherwise the removal attempt (via `sudo rm -rf`, `os.RemoveAll` or
`os.Remove` according to `useSudo` and the entry kind) succeeds exactly when the
oracle `removeOk` grants it, removal being all-or-nothing in this model. -/
def deleteSinglePath (fs : List FsEntry) (removeOk : String → Bool)
    (p : String) (useSudo : Bool) : Except String (List FsEntry) :=
  match statEntry fs p with
  | none => .ok fs
  | some e =>
    if useSudo then
      if removeOk p then .ok (removeSubtree fs p) else .error "sudo rm failed"
    else if e.kind == FsKind.dir then
      if removeOk p then .ok (removeSubtree fs p) else .error "remove directory failed"
    else
      if removeOk p then .ok (removeSubtree fs p) else .error "remove file failed"

/-- Mirrors `models.CleanupTarget` (Description and Category carry no
behaviour and are dropped). -/
structure CleanupTarget where
  name : String
  path : String
  size : Nat
  selected : Bool
  requiresSudo : Bool
  isCommand : Bool
  command : String
  deriving DecidableEq, Repr

/-- Mirrors `cleaner.CleanResult` (the timestamp is not modelled). -/
structure CleanResult where
  target : String
  requested : Nat
  actual : Nat
  err : Option String
  deriving DecidableEq, Repr

/-- Plain-path branch of `Cleaner.calculateActualSize`: a file contributes its
size, a directory the sum of the regular sizes below it (`utils.DirSize` walks
the subtree summing every non-directory entry), an absent path contributes 0. -/
def calculateActualSizeConcrete (fs : List FsEntry) (p : String) : Nat :=
  match statEntry fs p with
  | none => 0
  | some e =>
    if e.kind == FsKind.dir then
      (((fs.filter (fun x => (p ++ "/").isPrefixOf x.path && x.kind != FsKind.dir)).map
        (·.size)).sum)
    else e.size

/-- Model of `Cleaner.cleanTarget` for a target whose `Path` holds no wildcard
(so `filepath.Glob` returns the path itself exactly when it exists).  Paths are
taken pre-expanded (`utils.ExpandPath` resolves `~` against the home directory).
On a deletion error the region is returned unchanged (removal is
all-or-nothing in this model). -/
def cleanTarget (fs : List FsEntry) (removeOk : String → Bool)
    (execOk : String → Bool) (t : CleanupTarget) : CleanResult × List FsEntry :=
  if t.isCommand && t.command ≠ "" then
    (⟨t.name, t.size, t.size, if execOk t.command then none else some "command failed"⟩, fs)
  else
    match statEntry fs t.path with
    | none => (⟨t.name, t.size, 0, none⟩, fs)
    | some _ =>
      let before := calculateActualSizeConcrete fs t.path
      match deleteSinglePath fs removeOk t.path t.requiresSudo with
      | .error e => (⟨t.name, t.size, 0, some ("failed to delete: " ++ e)⟩, fs)
      | .ok fs₂ =>
        let after := calculateActualSizeConcrete fs₂ t.path
        (⟨t.name, t.size, before - after, none⟩, fs₂)

/-- Result bundle of `Cleaner.CleanTargets`: the per-target results, the total
saved, the (possibly size-reset) target list, and the final world state. -/
structure CleanOutcome (σ : Type) where
  results : List CleanResult
  total : Nat
  targets : List CleanupTarget
  state : σ
  deriving Repr

/-- Main loop of `Cleaner.CleanTargets`: unselected targets are skipped
untouched; each selected target is cleaned by `runClean` (the abstraction of
`cleanTarget` acting on the world state `σ`), and on an error-free result the
target's `Size` is reset to 0 and its `Actual` bytes are added to the total. -/
def cleanLoop {σ : Type} (runClean : σ → CleanupTarget → CleanResult × σ) :
    σ → List CleanupTarget → CleanOutcome σ
  | s, [] => ⟨[], 0, [], s⟩
  | s, t :: rest =>
    if t.selected then
      let rc := runClean s t
      let out := cleanLoop runClean rc.2 rest
      if rc.1.err.isNone then
        ⟨rc.1 :: out.results, rc.1.actual + out.total,
          { t with size := 0 } :: out.targets, out.state⟩
      else
        ⟨rc.1 :: out.results, out.total, t :: out.targets, out.state⟩
    else
      let out := cleanLoop runClean s rest
      ⟨out.results, out.total, t :: out.targets, out.state⟩

/-- Model of `Cleaner.CleanTargets`: if some selected target requires sudo and
`EnsureSudo` fails (`sudoOk = false`), the call returns the empty result list
and zero before anything is attempted; otherwise the loop runs. -/
def CleanTargets {σ : Type} (runClean : σ → CleanupTarget → CleanResult × σ)
    (sudoOk : Bool) (s : σ) (targets : List CleanupTarget) : CleanOutcome σ :=
  if targets.any (fun t => t.selected && t.requiresSudo) && !sudoOk then
    ⟨[], 0, targets, s⟩
  else cleanLoop runClean s targets

/-- Model of `Cleaner.DeleteFiles`: each file is statted (absent files are
skipped), the removal attempt succeeds exactly when `removeOk` grants it
(covering the direct `os.Remove` and the sudo fallback), and the sizes of the
successfully removed files are summed. -/
def DeleteFiles (stat : String → Option Nat) (removeOk : String → Bool)
    (files : List String) : Nat :=
  files.foldl
    (fun total f =>
      match stat f with
      | none => total
      | some sz => if removeOk f then total + sz else total) 0

/-- Selection loop of `Cleaner.DeleteDuplicates`, indexed from `i`: for every
selected group index the member paths after the first are collected; Go
iterates the selection map in unspecified order and skips out-of-range indices,
which is modelled by walking the group list once (the collected set is the
same). -/
def dupFilesAux (selected : Nat → Bool) :
    Nat → List scanner.DuplicateGroup → List String
  | _, [] => []
  | i, g :: rest =>
    (if selected i then g.files.drop 1 else []) ++ dupFilesAux selected (i + 1) rest

/-- Files that `Cleaner.DeleteDuplicates` passes to `DeleteFiles`: for every
selected group, every member path except the first. -/
def dupFilesToDelete (groups : List scanner.DuplicateGroup) (selected : Nat → Bool) :
    List String :=
  dupFilesAux selected 0 groups

/-- Model of `Cleaner.DeleteDuplicates`: delete the collected files and return
the bytes freed. -/
def DeleteDuplicates (stat : String → Option Nat) (removeOk : String → Bool)
    (groups : List scanner.DuplicateGroup) (selected : Nat → Bool) : Nat :=
  DeleteFiles stat removeOk (dupFilesToDelete groups selected)

end cleaner

/-! ## Lemmas about the unit-index loop of `formatBytes` -/

lemma expLoop_le (fuel : Nat) :
    ∀ (k n : Nat), n < 1024 ^ (k + 1) → scanner.expLoop fuel n ≤ k := by
  induction fuel with
  | zero => intro k n _; simp [scanner.expLoop]
  | succ fuel ih =>
    intro k n hn
    rw [scanner.expLoop]
    by_cases h : 1024 ≤ n
    · simp only [if_pos h]
      match k with
      | 0 =>
        exfalso
        simp [pow_one] at hn
        omega
      | k + 1 =>
        have hdiv : n / 1024 < 1024 ^ (k + 1) := by
          rw [Nat.div_lt_iff_lt_mul (by omega : 0 < 1024)]
          calc n < 1024 ^ (k + 2) := hn
          _ = 1024 ^ (k + 1) * 1024 := by ring
        have := ih k (n / 1024) hdiv
        omega
    · simp [if_neg h]

lemma expLoop_ge (fuel : Nat) :
    ∀ (k n : Nat), 1024 ^ (k + 1) ≤ n → k < fuel → k + 1 ≤ scanner.expLoop fuel n := by
  induction fuel with
  | zero => intro k n _ h; omega
  | succ fuel ih =>
    intro k n hn hk
    have hbig : 1024 ≤ n := by
      calc (1024 : Nat) = 1024 ^ 1 := (pow_one 1024).symm
      _ ≤ 1024 ^ (k + 1) := Nat.pow_le_pow_right (by omega) (by omega)
      _ ≤ n := hn
    rw [scanner.expLoop, if_pos hbig]
    match k with
    | 0 => omega
    | k + 1 =>
      have hdiv : 1024 ^ (k + 1) ≤ n / 1024 := by
        rw [Nat.le_div_iff_mul_le (by omega : 0 < 1024)]
        calc 1024 ^ (k + 1) * 1024 = 1024 ^ (k + 2) := by ring
        _ ≤ n := hn
      have := ih k (n / 1024) hdiv (by omega)
      omega

lemma byteExp_le_three {b : Nat} (hb : b < 1024 ^ 5) : scanner.byteExp b ≤ 3 := by
  apply expLoop_le b 3
  rw [Nat.div_lt_iff_lt_mul (by omega : 0 < 1024)]
  calc b < 1024 ^ 5 := hb
  _ = 1024 ^ 4 * 1024 := by ring

lemma byteExp_ge_four {b : Nat} (hb : 1024 ^ 5 ≤ b) : 4 ≤ scanner.byteExp b := by
  have h3 : (3 : Nat) < b := by
    have : (1024 : Nat) ^ 5 > 3 := by norm_num
    omega
  apply expLoop_ge b 3
  · rw [Nat.le_div_iff_mul_le (by omega : 0 < 1024)]
    calc (1024 : Nat) ^ 4 * 1024 = 1024 ^ 5 := by ring
    _ ≤ b := hb
  · exact h3

/-! ## Claim C7 (code bug): the scanner byte formatter drops the numeric prefix -/

/-- Claim C7: the spec (and the display formatter in internal/ltui) require
1023 ↦ "B", 1024 ↦ "1.0 KB", 1048576 ↦ "1.0 MB".  The formatter the claim
cites, `scanner.formatBytes`, satisfies only the first: at 1024 it returns the
bare label "KB" (its computed `div` is never used in the format string), so the
claim fails on that code while `ltui.formatBytes` meets it exactly. -/
theorem formatBytes_1024_bare_label :
    scanner.formatBytes 1023 = some "B" ∧
    scanner.formatBytes 1024 = some "KB" ∧
    scanner.formatBytes 1048576 = some "MB" ∧
    scanner.formatBytes 1024 ≠ some "1.0 KB" ∧
    ltui.formatBytes 1023 = some "B" ∧
    ltui.formatBytes 1024 = some "1.0 KB" ∧
    ltui.formatBytes 1048576 = some "1.0 MB" := by
  refine ⟨by decide, by decide, by decide, by decide, by decide, by decide, by decide⟩

/-! ## Claim C8 (corrected): the unit table is exhausted at 1 PiB -/

/-- Claim C8 counterexample: at exactly 1 PiB (1024^5) the unit index computed
by `scanner.formatBytes` is 4, past the end of its four-entry KB/MB/GB/TB
table, so the Go code panics with an out-of-range index (modelled by `none`):
the formatter does not return a result for every non-negative count, and PB is
not representable. -/
theorem formatBytes_panics_at_pebibyte :
    scanner.formatBytes (1024 ^ 5) = none ∧ scanner.byteExp (1024 ^ 5) = scanner.units.length := by
  exact ⟨by decide, by decide⟩

/-- Claim C8 amended: `scanner.formatBytes` returns a result exactly for byte
counts below 1 PiB (its unit lookup index stays inside the KB/MB/GB/TB table
for those and leaves it from 1024^5 on). -/
theorem formatBytes_defined_iff_below_pebibyte (b : Nat) :
    (scanner.formatBytes b).isSome = true ↔ b < 1024 ^ 5 := by
  unfold scanner.formatBytes
  by_cases hb : b < 1024
  · rw [if_pos hb]
    constructor
    · intro _
      calc b < 1024 := hb
      _ ≤ 1024 ^ 5 := by norm_num
    · intro _
      rfl
  · simp only [if_neg hb]
    have hlen : scanner.units.length = 4 := rfl
    constructor
    · intro hs
      by_contra hge
      push_neg at hge
      have h4 := byteExp_ge_four hge
      have : scanner.units.get? (scanner.byteExp b) = none :=
        List.get?_eq_none.mpr (by omega)
      rw [this] at hs
      simp at hs
    · intro hlt
      have h3 := byteExp_le_three hlt
      have : scanner.byteExp b < scanner.units.length := by omega
      rcases List.get?_eq_get this with h
      rw [h]
      simp

/-! ## Claim C3 (confirmed): wildcard deletion error semantics -/

lemma deleteLoop_count (del : String → Bool) :
    ∀ (ms : List String) (le : Option String) (cnt : Nat),
      (cleaner.deleteLoop del ms le cnt).2 = cnt + (ms.filter del).length := by
  intro ms
  induction ms with
  | nil => intro le cnt; simp [cleaner.deleteLoop]
  | cons m rest ih =>
    intro le cnt
    rw [cleaner.deleteLoop]
    cases h : del m with
    | true =>
      simp [h, ih, List.filter_cons]
      omega
    | false =>
      simp [h, ih, List.filter_cons]

lemma deleteLoop_err (del : String → Bool) :
    ∀ (ms : List String) (le : Option String) (cnt : Nat),
      (cleaner.deleteLoop del ms le cnt).1.isSome =
        (le.isSome || ms.any (fun m => !del m)) := by
  intro ms
  induction ms with
  | nil => intro le cnt; simp [cleaner.deleteLoop]
  | cons m rest ih =>
    intro le cnt
    rw [cleaner.deleteLoop]
    cases h : del m with
    | true => simp [h, ih]
    | false => simp [h, ih]

/-- Claim C3: after a successful glob of a wildcard path, `Cleaner.deletePath`
attempts every match (the loop never stops at a failure) and returns an error
precisely when there was at least one match and every single match failed to
delete; one success suffices for the call to report success. -/
theorem deletePath_wildcard_error_iff (ms : List String) (del : String → Bool) :
    cleaner.deletePathWildErr ms del = true ↔ ms ≠ [] ∧ ∀ m ∈ ms, del m = false := by
  unfold cleaner.deletePathWildErr
  match ms with
  | [] => simp
  | m :: rest =>
    rw [if_neg (by simp : ¬((m :: rest : List String).isEmpty = true))]
    rw [Bool.and_eq_true, deleteLoop_err, deleteLoop_count]
    simp only [Option.isSome_none, Bool.false_or, Nat.zero_add, beq_iff_eq,
      List.length_eq_zero, List.filter_eq_nil_iff, List.any_eq_true,
      Bool.not_eq_true']
    constructor
    · rintro ⟨-, hnone⟩
      refine ⟨by simp, fun x hx => ?_⟩
      have := hnone x hx
      cases hdel : del x
      · rfl
      · exact absurd hdel this
    · rintro ⟨-, hall⟩
      refine ⟨⟨m, by simp, hall m (by simp)⟩, fun x hx => ?_⟩
      simp [hall x hx]

/-! ## Claim C5 (corrected): the two wildcard size strategies -/

lemma find_foldl_char (pattern : String) :
    ∀ (l : List cleaner.FsEntry) (a : Nat),
      (l.filter (fun e => e.kind = cleaner.FsKind.file)).foldl
        (fun total e => if cleaner.globMatch pattern e.path then total + e.size else total) a =
        a + (((l.filter
            (fun e => e.kind = cleaner.FsKind.file ∧ cleaner.globMatch pattern e.path)).map
              (·.size)).sum) := by
  intro l
  induction l with
  | nil => intro a; simp
  | cons e rest ih =>
    intro a
    by_cases hf : e.kind = cleaner.FsKind.file
    · by_cases hm : cleaner.globMatch pattern e.path = true
      · simp [List.filter_cons, hf, hm, ih]
        omega
      · simp [List.filter_cons, hf, hm, ih]
    · simp [List.filter_cons, hf, ih]

lemma walk_foldl_char (pattern : String) :
    ∀ (l : List cleaner.FsEntry) (a : Nat),
      l.foldl
        (fun total e =>
          if e.kind = cleaner.FsKind.dir then total
          else if cleaner.globMatch pattern e.path then total + e.size else total) a =
        a + (((l.filter
            (fun e => e.kind ≠ cleaner.FsKind.dir ∧ cleaner.globMatch pattern e.path)).map
              (·.size)).sum) := by
  intro l
  induction l with
  | nil => intro a; simp
  | cons e rest ih =>
    intro a
    by_cases hd : e.kind = cleaner.FsKind.dir
    · simp [List.filter_cons, List.foldl_cons, hd, ih]
    · by_cases hm : cleaner.globMatch pattern e.path = true
      · simp [List.filter_cons, List.foldl_cons, hd, hm, ih]
        omega
      · simp [List.filter_cons, List.foldl_cons, hd, hm, ih]

/-- Claim C5 counterexample: on a region holding a symbolic link that matches
the pattern, the primary strategy (`find -type f`, which excludes symlinks)
and the fallback walk (which treats a symlink as a non-directory entry and adds
its lstat size) select different files and return different totals, so the two
strategies do not agree on every filesystem state. -/
theorem calculateActualSize_symlink_cex :
    cleaner.calculateActualSizeWild [⟨"c/x", cleaner.FsKind.symlink, 5⟩] "c/*" = 0 ∧
    cleaner.walkCalculateSize [⟨"c/x", cleaner.FsKind.symlink, 5⟩] "c/*" = 5 ∧
    cleaner.calculateActualSizeWild [⟨"c/x", cleaner.FsKind.symlink, 5⟩] "c/*" ≠
      cleaner.walkCalculateSize [⟨"c/x", cleaner.FsKind.symlink, 5⟩] "c/*" := by
  exact ⟨by decide, by decide, by decide⟩

/-- Claim C5 amended: on every region free of symbolic links (every entry a
regular file or a directory) the two strategies select exactly the same files
and return equal byte totals, for every pattern. -/
theorem calculateActualSize_agree_without_symlinks
    (entries : List cleaner.FsEntry) (pattern : String)
    (hnl : ∀ e ∈ entries, e.kind ≠ cleaner.FsKind.symlink) :
    ((entries.filter
        (fun e => e.kind = cleaner.FsKind.file ∧ cleaner.globMatch pattern e.path)).map
          (·.path)) =
      ((entries.filter
        (fun e => e.kind ≠ cleaner.FsKind.dir ∧ cleaner.globMatch pattern e.path)).map
          (·.path)) ∧
    cleaner.calculateActualSizeWild entries pattern =
      cleaner.walkCalculateSize entries pattern := by
  have hfilter :
      entries.filter
          (fun e => e.kind = cleaner.FsKind.file ∧ cleaner.globMatch pattern e.path) =
        entries.filter
          (fun e => e.kind ≠ cleaner.FsKind.dir ∧ cleaner.globMatch pattern e.path) := by
    apply List.filter_congr
    intro e he
    have hs := hnl e he
    cases hk : e.kind <;> simp_all
  refine ⟨by rw [hfilter], ?_⟩
  unfold cleaner.calculateActualSizeWild cleaner.walkCalculateSize
  rw [find_foldl_char, walk_foldl_char, hfilter]

/-- Witness for `calculateActualSize_agree_without_symlinks` at a concrete
symlink-free region. -/
theorem calculateActualSize_agree_without_symlinks_witness :
    cleaner.calculateActualSizeWild
        [⟨"c", cleaner.FsKind.dir, 0⟩, ⟨"c/x", cleaner.FsKind.file, 7⟩,
          ⟨"c/d/y", cleaner.FsKind.file, 9⟩] "c/*" =
      cleaner.walkCalculateSize
        [⟨"c", cleaner.FsKind.dir, 0⟩, ⟨"c/x", cleaner.FsKind.file, 7⟩,
          ⟨"c/d/y", cleaner.FsKind.file, 9⟩] "c/*" :=
  (calculateActualSize_agree_without_symlinks
    [⟨"c", cleaner.FsKind.dir, 0⟩, ⟨"c/x", cleaner.FsKind.file, 7⟩,
      ⟨"c/d/y", cleaner.FsKind.file, 9⟩] "c/*" (by decide)).2

/-! ## Claim C6 (confirmed): deleting an absent concrete path is clean success -/

/-- Claim C6: for a path-based target whose concrete (wildcard-free) path does
not exist, `cleanTarget` returns a `CleanResult` with no error and zero actual
bytes, leaving the filesystem untouched, and `deleteSinglePath` on that path
returns success without change. -/
theorem cleanTarget_absent_path_clean
    (fs : List cleaner.FsEntry) (removeOk execOk : String → Bool)
    (t : cleaner.CleanupTarget)
    (hcmd : (t.isCommand && !(t.command == "")) = false)
    (_hconc : t.path.toList.contains '*' = false)
    (habs : cleaner.statEntry fs t.path = none) :
    cleaner.cleanTarget fs removeOk execOk t = (⟨t.name, t.size, 0, none⟩, fs) ∧
    cleaner.deleteSinglePath fs removeOk t.path t.requiresSudo = Except.ok fs := by
  constructor
  · unfold cleaner.cleanTarget
    rw [if_neg (by simp_all), habs]
  · unfold cleaner.deleteSinglePath
    rw [habs]

/-- Witness for `cleanTarget_absent_path_clean` at a concrete absent path. -/
theorem cleanTarget_absent_path_clean_witness :
    cleaner.cleanTarget [] (fun _ => true) (fun _ => true)
        ⟨"Trash", "/t/x", 5, true, false, false, ""⟩ =
      (⟨"Trash", 5, 0, none⟩, []) ∧
    cleaner.deleteSinglePath [] (fun _ => true) "/t/x" false = Except.ok [] :=
  cleanTarget_absent_path_clean [] (fun _ => true) (fun _ => true)
    ⟨"Trash", "/t/x", 5, true, false, false, ""⟩ (by decide) (by decide) (by decide)

/-! ## Claims C1 and C2: the duplicate groups and the reclaimable total -/

lemma appendAt_mem {κ α : Type} [DecidableEq κ] (k : κ) (v : α) :
    ∀ (m : List (κ × List α)) (e : κ × List α), e ∈ scanner.appendAt k v m →
      ∀ x ∈ e.2, x = v ∨ ∃ e₀ ∈ m, x ∈ e₀.2 := by
  intro m
  induction m with
  | nil =>
    intro e he x hx
    simp [scanner.appendAt] at he
    subst he
    simp at hx
    exact Or.inl hx
  | cons b rest ih =>
    intro e he x hx
    obtain ⟨k₀, vs⟩ := b
    rw [scanner.appendAt] at he
    by_cases hk : k = k₀
    · rw [if_pos hk] at he
      rcases List.mem_cons.mp he with h | h
      · subst h
        rcases List.mem_append.mp hx with h | h
        · exact Or.inr ⟨(k₀, vs), by simp, h⟩
        · simp at h
          exact Or.inl h
      · exact Or.inr ⟨e, by simp [h], hx⟩
    · rw [if_neg hk] at he
      rcases List.mem_cons.mp he with h | h
      · subst h
        exact Or.inr ⟨(k₀, vs), by simp, hx⟩
      · rcases ih e h x hx with h' | ⟨e₀, he₀, hx₀⟩
        · exact Or.inl h'
        · exact Or.inr ⟨e₀, by simp [he₀], hx₀⟩

lemma sizeMapOf_mem_aux (P : scanner.DupFile → Prop) :
    ∀ (l : List scanner.DupFile) (acc : List (Nat × List scanner.DupFile)),
      (∀ e ∈ acc, ∀ x ∈ e.2, P x) → (∀ f ∈ l, P f) →
      ∀ e ∈ l.foldl
          (fun m f => if 1024 * 1024 < f.size then scanner.appendAt f.size f m else m) acc,
        ∀ x ∈ e.2, P x := by
  intro l
  induction l with
  | nil => intro acc hacc _ e he; exact hacc e he
  | cons f rest ih =>
    intro acc hacc hl e he
    rw [List.foldl_cons] at he
    by_cases hsz : 1024 * 1024 < f.size
    · rw [if_pos hsz] at he
      refine ih _ ?_ (fun g hg => hl g (by simp [hg])) e he
      intro e₀ he₀ x hx
      rcases appendAt_mem f.size f acc e₀ he₀ x hx with h | ⟨e₁, he₁, hx₁⟩
      · rw [h]; exact hl f (by simp)
      · exact hacc e₁ he₁ x hx₁
    · rw [if_neg hsz] at he
      exact ih _ hacc (fun g hg => hl g (by simp [hg])) e he

lemma sizeMapOf_mem (files : List scanner.DupFile) :
    ∀ e ∈ scanner.sizeMapOf files, ∀ x ∈ e.2, x ∈ files := by
  intro e he x hx
  exact sizeMapOf_mem_aux (· ∈ files) files [] (by simp) (fun f hf => hf) e he x hx

lemma hash_fold_mem_aux (P : scanner.DupFile → Prop) :
    ∀ (bucket : List scanner.DupFile) (acc : List (String × List scanner.DupFile)),
      (∀ e ∈ acc, ∀ x ∈ e.2, P x) → (∀ f ∈ bucket, P f) →
      ∀ e ∈ bucket.foldl
          (fun hm₀ f => if f.hash ≠ "" then scanner.appendAt f.hash f hm₀ else hm₀) acc,
        ∀ x ∈ e.2, P x := by
  intro bucket
  induction bucket with
  | nil => intro acc hacc _ e he; exact hacc e he
  | cons f rest ih =>
    intro acc hacc hl e he
    rw [List.foldl_cons] at he
    by_cases hh : f.hash ≠ ""
    · rw [if_pos hh] at he
      refine ih _ ?_ (fun g hg => hl g (by simp [hg])) e he
      intro e₀ he₀ x hx
      rcases appendAt_mem f.hash f acc e₀ he₀ x hx with h | ⟨e₁, he₁, hx₁⟩
      · rw [h]; exact hl f (by simp)
      · exact hacc e₁ he₁ x hx₁
    · rw [if_neg hh] at he
      exact ih _ hacc (fun g hg => hl g (by simp [hg])) e he

lemma hashMapOf_mem (files : List scanner.DupFile) :
    ∀ e ∈ scanner.hashMapOf files, ∀ x ∈ e.2, x ∈ files := by
  unfold scanner.hashMapOf
  suffices h :
      ∀ (buckets : List (Nat × List scanner.DupFile))
        (acc : List (String × List scanner.DupFile)),
        (∀ e ∈ acc, ∀ x ∈ e.2, x ∈ files) →
        (∀ b ∈ buckets, ∀ f ∈ b.2, f ∈ files) →
        ∀ e ∈ buckets.foldl
            (fun hm e =>
              if 2 ≤ e.2.length then
                e.2.foldl
                  (fun hm₀ f => if f.hash ≠ "" then scanner.appendAt f.hash f hm₀ else hm₀) hm
              else hm) acc,
          ∀ x ∈ e.2, x ∈ files by
    exact h (scanner.sizeMapOf files) [] (by simp) (sizeMapOf_mem files)
  intro buckets
  induction buckets with
  | nil => intro acc hacc _ e he; exact hacc e he
  | cons b rest ih =>
    intro acc hacc hb e he
    rw [List.foldl_cons] at he
    by_cases hlen : 2 ≤ b.2.length
    · rw [if_pos hlen] at he
      refine ih _ ?_ (fun g hg => hb g (by simp [hg])) e he
      intro e₀ he₀ x hx
      exact hash_fold_mem_aux (· ∈ files) b.2 acc hacc (hb b (by simp)) e₀ he₀ x hx
    · rw [if_neg hlen] at he
      exact ih _ hacc (fun g hg => hb g (by simp [hg])) e he

lemma buildGroups_spec :
    ∀ (m : List (String × List scanner.DupFile)) (g : scanner.DuplicateGroup),
      g ∈ (scanner.buildGroups m).1 →
      ∃ h f₀ f₁ tl, (h, f₀ :: f₁ :: tl) ∈ m ∧
        g = ⟨h, f₀.size, (f₀ :: f₁ :: tl).map (·.path)⟩ := by
  intro m
  induction m with
  | nil => intro g hg; simp [scanner.buildGroups] at hg
  | cons b rest ih =>
    intro g hg
    obtain ⟨h, fs⟩ := b
    rcases fs with _ | ⟨f₀, _ | ⟨f₁, tl⟩⟩
    · simp only [scanner.buildGroups] at hg
      obtain ⟨h', g₀, g₁, tl', hmem, hgeq⟩ := ih g hg
      exact ⟨h', g₀, g₁, tl', by simp [hmem], hgeq⟩
    · simp only [scanner.buildGroups] at hg
      obtain ⟨h', g₀, g₁, tl', hmem, hgeq⟩ := ih g hg
      exact ⟨h', g₀, g₁, tl', by simp [hmem], hgeq⟩
    · simp only [scanner.buildGroups] at hg
      rcases List.mem_cons.mp hg with hcase | hcase
      · exact ⟨h, f₀, f₁, tl, by simp, hcase⟩
      · obtain ⟨h', g₀, g₁, tl', hmem, hgeq⟩ := ih g hcase
        exact ⟨h', g₀, g₁, tl', by simp [hmem], hgeq⟩

lemma buildGroups_total :
    ∀ m : List (String × List scanner.DupFile),
      (scanner.buildGroups m).2 =
        (((scanner.buildGroups m).1).map (fun g => g.size * (g.files.length - 1))).sum := by
  intro m
  induction m with
  | nil => simp [scanner.buildGroups]
  | cons b rest ih =>
    obtain ⟨h, fs⟩ := b
    rcases fs with _ | ⟨f₀, _ | ⟨f₁, tl⟩⟩
    · simpa [scanner.buildGroups] using ih
    · simpa [scanner.buildGroups] using ih
    · simp [scanner.buildGroups, ih]

lemma statSize_of_mem :
    ∀ (files : List scanner.DupFile), (files.map (·.path)).Nodup →
      ∀ f ∈ files, scanner.statSize files f.path = some f.size := by
  intro files
  induction files with
  | nil => intro _ f hf; simp at hf
  | cons g rest ih =>
    intro hnd f hf
    rw [List.map_cons, List.nodup_cons] at hnd
    obtain ⟨hgpath, hnd'⟩ := hnd
    rcases List.mem_cons.mp hf with h | h
    · subst h
      simp [scanner.statSize, List.find?]
    · have hne : ¬(g.path = f.path) := by
        intro he
        refine hgpath ?_
        rw [he]
        exact List.mem_map_of_mem (·.path) h
      unfold scanner.statSize
      rw [List.find?]
      have hpred : (decide (g.path = f.path)) = false := by
        simp [hne]
      rw [hpred]
      exact ih hnd' f h

/-- Claim C1 counterexample: four files all sharing the same first-4096-byte
fingerprint, two of size 2097153 and two of size 3145728 (each size bucket
holding two files, so all four are hashed), are emitted as one single group
whose recorded `Size` is the first member's 2097153, while member "c" has
current on-disk size 3145728 — so not every member's size equals the group's
recorded size. -/
theorem scanDuplicates_group_size_cex :
    ¬ (∀ g ∈ (scanner.ScanDuplicates
          [⟨"a", 2097153, "h"⟩, ⟨"b", 2097153, "h"⟩,
            ⟨"c", 3145728, "h"⟩, ⟨"d", 3145728, "h"⟩]).1,
        2 ≤ g.files.length ∧
          ∀ p ∈ g.files,
            scanner.statSize
              [⟨"a", 2097153, "h"⟩, ⟨"b", 2097153, "h"⟩,
                ⟨"c", 3145728, "h"⟩, ⟨"d", 3145728, "h"⟩] p = some g.size) := by
  decide

/-- Claim C1 amended: every produced duplicate group has at least two member
paths, and the group's recorded `Size` equals the current on-disk size of the
group's first member (the hashing pass can mix members of different sizes into
one group when their prefix fingerprints collide across size buckets, so the
remaining members need not have the recorded size). -/
theorem scanDuplicates_group_first_size
    (files : List scanner.DupFile) (hnd : (files.map (·.path)).Nodup) :
    ∀ g ∈ (scanner.ScanDuplicates files).1,
      2 ≤ g.files.length ∧
        ∃ p, g.files.head? = some p ∧ scanner.statSize files p = some g.size := by
  intro g hg
  obtain ⟨h, f₀, f₁, tl, hmem, hgeq⟩ := buildGroups_spec (scanner.hashMapOf files) g hg
  subst hgeq
  constructor
  · simp
  · refine ⟨f₀.path, by simp, ?_⟩
    have hf₀ : f₀ ∈ files :=
      hashMapOf_mem files (h, f₀ :: f₁ :: tl) hmem f₀ (by simp)
    exact statSize_of_mem files hnd f₀ hf₀

/-- Witness for `scanDuplicates_group_first_size` on a concrete two-file scan. -/
theorem scanDuplicates_group_first_size_witness :
    2 ≤ (scanner.DuplicateGroup.mk "h" 2097152 ["a", "b"]).files.length ∧
      ∃ p, (scanner.DuplicateGroup.mk "h" 2097152 ["a", "b"]).files.head? = some p ∧
        scanner.statSize [⟨"a", 2097152, "h"⟩, ⟨"b", 2097152, "h"⟩] p =
          some (scanner.DuplicateGroup.mk "h" 2097152 ["a", "b"]).size :=
  scanDuplicates_group_first_size
    [⟨"a", 2097152, "h"⟩, ⟨"b", 2097152, "h"⟩] (by decide)
    (scanner.DuplicateGroup.mk "h" 2097152 ["a", "b"]) (by decide)

/-- Claim C2: the total returned by `ScanDuplicates` is exactly the sum over
all produced groups of `size * (members - 1)`; in particular two files of
2 MiB sharing content yield one group of size 2 MiB with two members and a
reclaimable total of exactly 2 MiB. -/
theorem scanDuplicates_total_reclaimable :
    (∀ files : List scanner.DupFile,
        (scanner.ScanDuplicates files).2 =
          (((scanner.ScanDuplicates files).1).map
            (fun g => g.size * (g.files.length - 1))).sum) ∧
      scanner.ScanDuplicates [⟨"a", 2097152, "h"⟩, ⟨"b", 2097152, "h"⟩] =
        ([⟨"h", 2097152, ["a", "b"]⟩], 2097152) := by
  constructor
  · intro files
    exact buildGroups_total (scanner.hashMapOf files)
  · decide

/-! ## Claim C9 (confirmed): duplicate deletion keeps the first member -/

lemma dupFilesAux_mem (selected : Nat → Bool) :
    ∀ (groups : List scanner.DuplicateGroup) (i : Nat) (p : String),
      p ∈ cleaner.dupFilesAux selected i groups ↔
        ∃ j, ∃ hj : j < groups.length, selected (i + j) = true ∧
          p ∈ ((groups.get ⟨j, hj⟩).files.drop 1) := by
  intro groups
  induction groups with
  | nil => intro i p; simp [cleaner.dupFilesAux]
  | cons g rest ih =>
    intro i p
    rw [cleaner.dupFilesAux, List.mem_append]
    constructor
    · rintro (hin | hin)
      · by_cases hsel : selected i = true
        · rw [if_pos hsel] at hin
          exact ⟨0, by simp, by simpa using hsel, hin⟩
        · rw [if_neg hsel] at hin
          simp at hin
      · obtain ⟨j, hj, hs, hp⟩ := (ih (i + 1) p).mp hin
        refine ⟨j + 1, by simpa using hj, ?_, hp⟩
        have harith : i + (j + 1) = i + 1 + j := by omega
        rw [harith]
        exact hs
    · rintro ⟨j, hj, hs, hp⟩
      match j with
      | 0 =>
        left
        rw [if_pos (by simpa using hs)]
        exact hp
      | j + 1 =>
        right
        refine (ih (i + 1) p).mpr ⟨j, by simpa using hj, ?_, hp⟩
        have harith : i + 1 + j = i + (j + 1) := by omega
        rw [harith]
        exact hs

/-- Claim C9: `DeleteDuplicates` passes to the deletion routine exactly the
member paths after the first of every selected group; under the scan invariant
that no path occurs in two groups (or twice in one), the first member of every
selected group is never deleted and no member of an unselected group is. -/
theorem deleteDuplicates_keeps_first
    (groups : List scanner.DuplicateGroup) (selected : Nat → Bool)
    (hnd : (groups.flatMap (fun g => g.files)).Nodup) :
    (∀ p, p ∈ cleaner.dupFilesToDelete groups selected ↔
        ∃ i, ∃ hi : i < groups.length, selected i = true ∧
          p ∈ ((groups.get ⟨i, hi⟩).files.drop 1)) ∧
    (∀ i (hi : i < groups.length) p, selected i = true →
        (groups.get ⟨i, hi⟩).files.head? = some p →
        p ∉ cleaner.dupFilesToDelete groups selected) ∧
    (∀ i (hi : i < groups.length), selected i = false →
        ∀ p ∈ (groups.get ⟨i, hi⟩).files,
          p ∉ cleaner.dupFilesToDelete groups selected) := by
  have hmem : ∀ p, p ∈ cleaner.dupFilesToDelete groups selected ↔
      ∃ i, ∃ hi : i < groups.length, selected i = true ∧
        p ∈ ((groups.get ⟨i, hi⟩).files.drop 1) := by
    intro p
    have := dupFilesAux_mem selected groups 0 p
    simpa [cleaner.dupFilesToDelete] using this
  obtain ⟨hall, hpair⟩ := List.nodup_flatMap.mp hnd
  have hdisj : ∀ (i j : Nat) (hi : i < groups.length) (hj : j < groups.length),
      i ≠ j → ∀ a, a ∈ (groups.get ⟨i, hi⟩).files →
        a ∈ (groups.get ⟨j, hj⟩).files → False := by
    intro i j hi hj hne a hai haj
    rcases Nat.lt_or_ge i j with hlt | hge
    · exact List.pairwise_iff_get.mp hpair ⟨i, hi⟩ ⟨j, hj⟩ hlt hai haj
    · have hlt : j < i := by omega
      exact List.pairwise_iff_get.mp hpair ⟨j, hj⟩ ⟨i, hi⟩ hlt haj hai
  refine ⟨hmem, ?_, ?_⟩
  · intro i hi p hsel hhead hin
    obtain ⟨j, hj, hsj, hpj⟩ := (hmem p).mp hin
    have hpjf : p ∈ (groups.get ⟨j, hj⟩).files := List.mem_of_mem_drop hpj
    have hpif : p ∈ (groups.get ⟨i, hi⟩).files := List.mem_of_mem_head? hhead
    by_cases hij : i = j
    · subst hij
      have hnod : (groups.get ⟨i, hi⟩).files.Nodup :=
        hall _ (List.get_mem groups i hi)
      rcases hfs : (groups.get ⟨i, hi⟩).files with _ | ⟨q, t⟩
      · rw [hfs] at hpif
        simp at hpif
      · rw [hfs] at hhead hpj hnod
        have hq : q = p := by simpa using hhead
        have hpt : p ∈ t := by simpa using hpj
        exact (List.nodup_cons.mp hnod).1 (hq.symm ▸ hpt)
    · exact hdisj i j hi hj hij p hpif hpjf
  · intro i hi hsel p hpf hin
    obtain ⟨j, hj, hsj, hpj⟩ := (hmem p).mp hin
    have hij : i ≠ j := by
      intro he
      subst he
      rw [hsel] at hsj
      exact Bool.false_ne_true hsj
    exact hdisj i j hi hj hij p hpf (List.mem_of_mem_drop hpj)

/-- Witness for `deleteDuplicates_keeps_first` on two concrete groups with the
first one selected: "b" (a non-first member of the selected group) is slated
for deletion, while "a" (the first member) and "c" (member of the unselected
group) are not. -/
theorem deleteDuplicates_keeps_first_witness :
    ("b" ∈ cleaner.dupFilesToDelete
        [⟨"h1", 10, ["a", "b"]⟩, ⟨"h2", 20, ["c", "d"]⟩] (fun i => i == 0)) ∧
    ("a" ∉ cleaner.dupFilesToDelete
        [⟨"h1", 10, ["a", "b"]⟩, ⟨"h2", 20, ["c", "d"]⟩] (fun i => i == 0)) ∧
    ("c" ∉ cleaner.dupFilesToDelete
        [⟨"h1", 10, ["a", "b"]⟩, ⟨"h2", 20, ["c", "d"]⟩] (fun i => i == 0)) := by
  obtain ⟨hm, hfirst, hunsel⟩ :=
    deleteDuplicates_keeps_first
      [⟨"h1", 10, ["a", "b"]⟩, ⟨"h2", 20, ["c", "d"]⟩] (fun i => i == 0) (by decide)
  refine ⟨?_, ?_, ?_⟩
  · exact (hm "b").mpr ⟨0, by decide, by decide, by decide⟩
  · exact hfirst 0 (by decide) "a" (by decide) (by decide)
  · exact hunsel 1 (by decide) (by decide) "c" (by decide)

/-! ## Claim C4 (confirmed): a sudo failure aborts the batch untouched -/

/-- Claim C4: when some selected target requires elevated privileges and
`EnsureSudo` fails, `CleanTargets` returns the empty result list and a zero
total, with the target list (in particular every `Size` field) and the world
state completely unchanged — for every possible deletion behaviour `runClean`,
showing no deletion is attempted. -/
theorem cleanTargets_sudo_failure_aborts {σ : Type}
    (runClean : σ → cleaner.CleanupTarget → cleaner.CleanResult × σ)
    (s : σ) (targets : List cleaner.CleanupTarget)
    (hneed : targets.any (fun t => t.selected && t.requiresSudo) = true) :
    cleaner.CleanTargets runClean false s targets = ⟨[], 0, targets, s⟩ := by
  unfold cleaner.CleanTargets
  rw [hneed]
  simp

/-- Witness for `cleanTargets_sudo_failure_aborts` with one selected
sudo-requiring target and a counting world state. -/
theorem cleanTargets_sudo_failure_aborts_witness :
    cleaner.CleanTargets
        (fun (s : Nat) t => (⟨t.name, t.size, t.size, none⟩, s + 1)) false 0
        [⟨"System Logs", "/var/log/x", 9, true, true, false, ""⟩] =
      ⟨[], 0, [⟨"System Logs", "/var/log/x", 9, true, true, false, ""⟩], 0⟩ :=
  cleanTargets_sudo_failure_aborts
    (fun (s : Nat) t => (⟨t.name, t.size, t.size, none⟩, s + 1)) 0
    [⟨"System Logs", "/var/log/x", 9, true, true, false, ""⟩] (by decide)

/-! ## Claim C10 (confirmed): frame conditions of `CleanTargets` -/

lemma cleanLoop_targets_length {σ : Type}
    (runClean : σ → cleaner.CleanupTarget → cleaner.CleanResult × σ) :
    ∀ (targets : List cleaner.CleanupTarget) (s : σ),
      (cleaner.cleanLoop runClean s targets).targets.length = targets.length := by
  intro targets
  induction targets with
  | nil => intro s; simp [cleaner.cleanLoop]
  | cons t rest ih =>
    intro s
    by_cases hsel : t.selected = true
    · by_cases herr : ((runClean s t).1).err.isNone = true
      · simp [cleaner.cleanLoop, hsel, herr, ih]
      · simp [cleaner.cleanLoop, hsel, herr, ih]
    · simp [cleaner.cleanLoop, hsel, ih]

lemma cleanLoop_results_length {σ : Type}
    (runClean : σ → cleaner.CleanupTarget → cleaner.CleanResult × σ) :
    ∀ (targets : List cleaner.CleanupTarget) (s : σ),
      (cleaner.cleanLoop runClean s targets).results.length =
        (targets.filter (fun t => t.selected)).length := by
  intro targets
  induction targets with
  | nil => intro s; simp [cleaner.cleanLoop]
  | cons t rest ih =>
    intro s
    by_cases hsel : t.selected = true
    · by_cases herr : ((runClean s t).1).err.isNone = true
      · simp [cleaner.cleanLoop, hsel, herr, ih, List.filter_cons]
      · simp [cleaner.cleanLoop, hsel, herr, ih, List.filter_cons]
    · simp [cleaner.cleanLoop, hsel, ih, List.filter_cons]

lemma cleanLoop_results_provenance {σ : Type}
    (runClean : σ → cleaner.CleanupTarget → cleaner.CleanResult × σ)
    (hname : ∀ (s₀ : σ) (t : cleaner.CleanupTarget), ((runClean s₀ t).1).target = t.name) :
    ∀ (targets : List cleaner.CleanupTarget) (s : σ),
      ∀ r ∈ (cleaner.cleanLoop runClean s targets).results,
        ∃ t ∈ targets, t.selected = true ∧ r.target = t.name := by
  intro targets
  induction targets with
  | nil => intro s r hr; simp [cleaner.cleanLoop] at hr
  | cons t rest ih =>
    intro s r hr
    by_cases hsel : t.selected = true
    · by_cases herr : ((runClean s t).1).err.isNone = true
      · simp only [cleaner.cleanLoop, hsel, herr, if_pos rfl, if_true] at hr
        rcases List.mem_cons.mp hr with h | h
        · exact ⟨t, by simp, hsel, by rw [h]; exact hname s t⟩
        · obtain ⟨t₀, ht₀, hsel₀, hn₀⟩ := ih ((runClean s t).2) r h
          exact ⟨t₀, by simp [ht₀], hsel₀, hn₀⟩
      · simp only [cleaner.cleanLoop, hsel, herr, if_true, if_false] at hr
        rcases List.mem_cons.mp hr with h | h
        · exact ⟨t, by simp, hsel, by rw [h]; exact hname s t⟩
        · obtain ⟨t₀, ht₀, hsel₀, hn₀⟩ := ih ((runClean s t).2) r h
          exact ⟨t₀, by simp [ht₀], hsel₀, hn₀⟩
    · simp only [cleaner.cleanLoop, hsel, if_false] at hr
      obtain ⟨t₀, ht₀, hsel₀, hn₀⟩ := ih s r hr
      exact ⟨t₀, by simp [ht₀], hsel₀, hn₀⟩

lemma cleanLoop_unselected {σ : Type}
    (runClean : σ → cleaner.CleanupTarget → cleaner.CleanResult × σ) :
    ∀ (targets : List cleaner.CleanupTarget) (s : σ) (i : Nat)
      (t : cleaner.CleanupTarget),
      targets.get? i = some t → t.selected = false →
      (cleaner.cleanLoop runClean s targets).targets.get? i = some t := by
  intro targets
  induction targets with
  | nil => intro s i t hget _; simp at hget
  | cons hd rest ih =>
    intro s i t hget hsel
    match i with
    | 0 =>
      have hhd : hd = t := by simpa using hget
      subst hhd
      simp [cleaner.cleanLoop, hsel]
    | i + 1 =>
      have hget' : rest.get? i = some t := by simpa using hget
      by_cases hs : hd.selected = true
      · by_cases herr : ((runClean s hd).1).err.isNone = true
        · simp only [cleaner.cleanLoop, hs, herr, if_true, if_pos rfl]
          simpa using ih ((runClean s hd).2) i t hget' hsel
        · simp only [cleaner.cleanLoop, hs, herr, if_true, if_false]
          simpa using ih ((runClean s hd).2) i t hget' hsel
      · simp only [cleaner.cleanLoop, hs, if_false]
        simpa using ih s i t hget' hsel

lemma cleanLoop_selected {σ : Type}
    (runClean : σ → cleaner.CleanupTarget → cleaner.CleanResult × σ) :
    ∀ (targets : List cleaner.CleanupTarget) (s : σ) (i : Nat)
      (t : cleaner.CleanupTarget),
      targets.get? i = some t → t.selected = true →
      ∀ r, (cleaner.cleanLoop runClean s targets).results.get?
          (((targets.take i).filter (fun t => t.selected)).length) = some r →
        (r.err = none →
          (cleaner.cleanLoop runClean s targets).targets.get? i =
            some { t with size := 0 }) ∧
        (r.err ≠ none →
          (cleaner.cleanLoop runClean s targets).targets.get? i = some t) := by
  intro targets
  induction targets with
  | nil => intro s i t hget _; simp at hget
  | cons hd rest ih =>
    intro s i t hget hsel r hr
    match i with
    | 0 =>
      have hhd : hd = t := by simpa using hget
      subst hhd
      by_cases herr : ((runClean s hd).1).err.isNone = true
      · simp only [cleaner.cleanLoop, hsel, herr, if_true, if_pos rfl,
          List.take_zero, List.filter_nil, List.length_nil, List.get?] at hr
        have hrr : r = (runClean s hd).1 := by
          simpa using hr.symm
        subst hrr
        constructor
        · intro _
          simp [cleaner.cleanLoop, hsel, herr]
        · intro hne
          exact absurd (Option.isNone_iff_eq_none.mp herr) hne
      · simp only [cleaner.cleanLoop, hsel, herr, if_true, if_false,
          List.take_zero, List.filter_nil, List.length_nil, List.get?] at hr
        have hrr : r = (runClean s hd).1 := by
          simpa using hr.symm
        subst hrr
        constructor
        · intro heq
          rw [heq] at herr
          simp at herr
        · intro _
          simp [cleaner.cleanLoop, hsel, herr]
    | i + 1 =>
      have hget' : rest.get? i = some t := by simpa using hget
      by_cases hs : hd.selected = true
      · have htake : (((hd :: rest).take (i + 1)).filter (fun t => t.selected)).length =
            ((rest.take i).filter (fun t => t.selected)).length + 1 := by
          simp [List.take_succ_cons, List.filter_cons, hs]
        by_cases herr : ((runClean s hd).1).err.isNone = true
        · simp only [cleaner.cleanLoop, hs, herr, if_true, if_pos rfl] at hr ⊢
          rw [htake] at hr
          have hr' : (cleaner.cleanLoop runClean ((runClean s hd).2) rest).results.get?
              (((rest.take i).filter (fun t => t.selected)).length) = some r := by
            simpa using hr
          have := ih ((runClean s hd).2) i t hget' hsel r hr'
          constructor
          · intro he
            simpa using (this.1 he)
          · intro he
            simpa using (this.2 he)
        · simp only [cleaner.cleanLoop, hs, herr, if_true, if_false] at hr ⊢
          rw [htake] at hr
          have hr' : (cleaner.cleanLoop runClean ((runClean s hd).2) rest).results.get?
              (((rest.take i).filter (fun t => t.selected)).length) = some r := by
            simpa using hr
          have := ih ((runClean s hd).2) i t hget' hsel r hr'
          constructor
          · intro he
            simpa using (this.1 he)
          · intro he
            simpa using (this.2 he)
      · have htake : (((hd :: rest).take (i + 1)).filter (fun t => t.selected)).length =
            ((rest.take i).filter (fun t => t.selected)).length := by
          simp [List.take_succ_cons, List.filter_cons, hs]
        simp only [cleaner.cleanLoop, hs, if_false] at hr ⊢
        rw [htake] at hr
        have := ih s i t hget' hsel r hr
        constructor
        · intro he
          simpa using (this.1 he)
        · intro he
          simpa using (this.2 he)

/-- Claim C10: after `CleanTargets`, the target list keeps its length; every
target that was not selected is returned unchanged at its position and no
`CleanResult` belongs to it (every result carries the name of a selected
target, and there are either no results at all — the aborted-sudo case — or
exactly one per selected target); and a selected target whose result carries
no error has its `Size` reset to 0, while one whose result carries an error is
returned unchanged. -/
theorem cleanTargets_frame {σ : Type}
    (runClean : σ → cleaner.CleanupTarget → cleaner.CleanResult × σ)
    (sudoOk : Bool) (s : σ) (targets : List cleaner.CleanupTarget)
    (hname : ∀ (s₀ : σ) (t : cleaner.CleanupTarget), ((runClean s₀ t).1).target = t.name) :
    (cleaner.CleanTargets runClean sudoOk s targets).targets.length = targets.length ∧
    ((cleaner.CleanTargets runClean sudoOk s targets).results = [] ∨
      (cleaner.CleanTargets runClean sudoOk s targets).results.length =
        (targets.filter (fun t => t.selected)).length) ∧
    (∀ r ∈ (cleaner.CleanTargets runClean sudoOk s targets).results,
      ∃ t ∈ targets, t.selected = true ∧ r.target = t.name) ∧
    (∀ i t, targets.get? i = some t → t.selected = false →
      (cleaner.CleanTargets runClean sudoOk s targets).targets.get? i = some t) ∧
    (∀ i t, targets.get? i = some t → t.selected = true →
      ∀ r, (cleaner.CleanTargets runClean sudoOk s targets).results.get?
          (((targets.take i).filter (fun t => t.selected)).length) = some r →
        (r.err = none →
          (cleaner.CleanTargets runClean sudoOk s targets).targets.get? i =
            some { t with size := 0 }) ∧
        (r.err ≠ none →
          (cleaner.CleanTargets runClean sudoOk s targets).targets.get? i = some t)) := by
  unfold cleaner.CleanTargets
  by_cases hgate : (targets.any (fun t => t.selected && t.requiresSudo) && !sudoOk) = true
  · rw [if_pos hgate]
    refine ⟨rfl, Or.inl rfl, by simp, by intro i t hget _; simpa using hget, ?_⟩
    intro i t _ _ r hr
    simp at hr
  · rw [if_neg hgate]
    exact ⟨cleanLoop_targets_length runClean targets s,
      Or.inr (cleanLoop_results_length runClean targets s),
      cleanLoop_results_provenance runClean hname targets s,
      fun i t hget hsel => cleanLoop_unselected runClean targets s i t hget hsel,
      fun i t hget hsel r hr => cleanLoop_selected runClean targets s i t hget hsel r hr⟩

/-- Witness for `cleanTargets_frame`: one unselected target is returned
unchanged in place. -/
theorem cleanTargets_frame_witness :
    (cleaner.CleanTargets
        (fun (s : Nat) t => (⟨t.name, t.size, 0, none⟩, s)) true 0
        [⟨"User Caches", "/c/x", 3, false, false, false, ""⟩]).targets.get? 0 =
      some ⟨"User Caches", "/c/x", 3, false, false, false, ""⟩ :=
  (cleanTargets_frame (fun (s : Nat) t => (⟨t.name, t.size, 0, none⟩, s)) true 0
      [⟨"User Caches", "/c/x", 3, false, false, false, ""⟩]
      (fun _ _ => rfl)).2.2.2.1 0
    ⟨"User Caches", "/c/x", 3, false, false, false, ""⟩ rfl rfl
